import Mathlib

/-!
Shallow embedding of `clickhouse.cpp` (ClickHouseTakeHome): streaming top-K
selection (batched sort-and-trim) and reservoir sampling (the code's
`GenerateAlgorithmR`), plus the histogram report and the command-line
validation logic.  Machine `long` values that the program keeps nonnegative
(array indices, line counters, bucket bounds) are modelled as `Nat`; record
scores are modelled as `Int`.  File I/O is abstracted into a `List DATA_ITEM`
of the valid records the tokenizer hands to the core, and the C library
`rand()` pair drawn per record is abstracted into a function from the arrival
index to the two 31-bit values.
-/

/-- `DATA_ITEM` from the source: a URL string plus a signed 64-bit score. -/
structure DATA_ITEM where
  URL : String
  LongValue : Int
deriving DecidableEq

/-- `SAMPLE_ITEM` from the source: a record plus the arrival index
(`SampleIndex`) at which it was read from the stream. -/
structure SAMPLE_ITEM where
  DataItem : DATA_ITEM
  SampleIndex : Nat
deriving DecidableEq

/-- `BUCKET` from the source: a count and an upper bound on arrival indices. -/
structure BUCKET where
  Count : Nat
  MaxValue : Nat
deriving DecidableEq

/-- `CompareAscending` from the source (lines 726-729). -/
def CompareAscending (Item1 Item2 : DATA_ITEM) : Bool :=
  decide (Item1.LongValue < Item2.LongValue)

/-- `CompareDescending` from the source (lines 731-734). -/
def CompareDescending (Item1 Item2 : DATA_ITEM) : Bool :=
  decide (Item1.LongValue > Item2.LongValue)

/-- Model of `std::sort` with a strict comparator `cmp`: some permutation
with no inversions, i.e. sorted for the induced non-strict relation
`fun a b => cmp b a = false`.  `std::sort` leaves the order of tied elements
unspecified; the embedding picks the (deterministic) insertion-sort order. -/
def stdSort (cmp : DATA_ITEM → DATA_ITEM → Bool) (v : List DATA_ITEM) : List DATA_ITEM :=
  v.insertionSort (fun a b => cmp b a = false)

/-- One iteration of the batch loop in `main` (lines 617-651): append the
batch, sort the whole candidate vector, ratchet `ResultCount` down to the
vector size if the vector is smaller, and trim the tail so only the first
`ResultCount` records stay. -/
def processBatch (cmp : DATA_ITEM → DATA_ITEM → Bool)
    (st : List DATA_ITEM × Nat) (batch : List DATA_ITEM) : List DATA_ITEM × Nat :=
  let v := stdSort cmp (st.1 ++ batch)
  let K := if v.length < st.2 then v.length else st.2
  (v.take K, K)

/-- The batch loop of `main` over a list of (nonempty) batches; the state is
the candidate vector together with the current (ratcheted) `ResultCount`. -/
def runBatches (cmp : DATA_ITEM → DATA_ITEM → Bool)
    (st : List DATA_ITEM × Nat) (chunks : List (List DATA_ITEM)) : List DATA_ITEM × Nat :=
  chunks.foldl (processBatch cmp) st

/-- Batching of the input stream: the inner read loop of `main` (lines
576-598) reads up to `BatchSize` records, and the outer loop stops at the
first empty batch.  `fuel` bounds the recursion; it is instantiated with the
stream length, which suffices whenever `b ≥ 1` (config validation rejects
`BatchSize ≤ 0`). -/
def chunksGo (b : Nat) : Nat → List DATA_ITEM → List (List DATA_ITEM)
  | _, [] => []
  | 0, _ :: _ => []
  | fuel + 1, x :: xs => (x :: xs).take b :: chunksGo b fuel ((x :: xs).drop b)

/-- The batches actually read from a stream `s` with batch size `b`. -/
def chunkStream (b : Nat) (s : List DATA_ITEM) : List (List DATA_ITEM) :=
  chunksGo b s.length s

/-- Normal ("batched top-K") mode of `main`: process the stream batch by
batch starting from an empty vector and the configured `ResultCount = K`;
the final vector is the printed result. -/
def runBatchTopK (batchSize K : Nat) (cmp : DATA_ITEM → DATA_ITEM → Bool)
    (stream : List DATA_ITEM) : List DATA_ITEM :=
  (runBatches cmp ([], K) (chunkStream batchSize stream)).1

/-- `PrintVectorData` from the source (lines 738-773): it unconditionally
reads `DataVector->at(0)` before the loop, so on an empty vector it throws
`std::out_of_range` and the process aborts (modelled as `none`); otherwise
it prints every entry and returns `true`. -/
def PrintVectorData (DataVector : List DATA_ITEM) : Option Bool :=
  match DataVector with
  | [] => none
  | _ :: _ => some true

/-! ## Reservoir sampling (`GenerateAlgorithmR`) -/

/-- The 64-bit value built from two successive `rand()` results (line 193):
`((long) rand() << 32) | ((long) rand())`.  Both calls return a value in
`[0, 2^31)`, so the combination is nonnegative and below `2^63`. -/
def combineRand (r1 r2 : Nat) : Nat :=
  (r1 <<< 32) ||| r2

/-- The selection test of `GenerateAlgorithmR` (lines 193-197): the raw
64-bit draw is reduced modulo `SampleIndex` and the record is retained when
the result is at most `ReservoirSize - 1`.  The run always has
`ReservoirSize = ResultCount = K ≥ 1` (config validation rejects
`ResultCount ≤ 0`), so the `Nat` subtraction agrees with the C signed
arithmetic. -/
def selectDecision (ReservoirSize SampleIndex raw : Nat) : Bool :=
  decide (raw % SampleIndex ≤ ReservoirSize - 1)

/-- One replacement step of `GenerateAlgorithmR` (lines 193-226): compute
`RandomValue`, and if it falls within the reservoir replace
`Reservoir[RandomValue]` with a fresh `SAMPLE_ITEM` carrying the current
`SampleIndex`. -/
def selectStep (K : Nat) (Reservoir : List (Option SAMPLE_ITEM))
    (SampleIndex : Nat) (d : DATA_ITEM) (r1 r2 : Nat) : List (Option SAMPLE_ITEM) :=
  let RandomValue := combineRand r1 r2 % SampleIndex
  if selectDecision K SampleIndex (combineRand r1 r2) then
    Reservoir.set RandomValue (some ⟨d, SampleIndex⟩)
  else
    Reservoir

/-- The sampling loop of `GenerateAlgorithmR` (lines 170-233): for every
remaining record, increment `SampleIndex`, draw two `rand()` values and run
the replacement step.  Returns the final reservoir and final `SampleIndex`. -/
def selectLoop (K : Nat) (rands : Nat → Nat × Nat) :
    List (Option SAMPLE_ITEM) → Nat → List DATA_ITEM → List (Option SAMPLE_ITEM) × Nat
  | Reservoir, SampleIndex, [] => (Reservoir, SampleIndex)
  | Reservoir, SampleIndex, d :: rest =>
    let i := SampleIndex + 1
    let r := rands i
    selectLoop K rands (selectStep K Reservoir i d r.1 r.2) i rest

/-- The initial fill of `GenerateAlgorithmR` (lines 121-153): read `n` more
records, giving slot `i` the wrapper `{record, SampleIndex = i}`; if the
stream runs out first the code takes `goto Failed` and the whole run fails
(`none`). -/
def fillReservoir : Nat → Nat → List DATA_ITEM →
    Option (List (Option SAMPLE_ITEM) × List DATA_ITEM)
  | 0, _, s => some ([], s)
  | _ + 1, _, [] => none
  | n + 1, i, d :: s =>
    match fillReservoir n (i + 1) s with
    | none => none
    | some (res, rest) => some (some ⟨d, i⟩ :: res, rest)

/-- `GenerateAlgorithmR` (lines 83-268) with `K = ResultCount ≥ 1` (config
validation rejects `ResultCount ≤ 0`): fill the reservoir with the first
`K` records at arrival indices `0..K-1`, then run the sampling loop with
`SampleIndex` starting at `K - 1`.  Returns the final reservoir and the
total number of records read (`SampleIndex + 1`), or `none` on the
`goto Failed` path. -/
def GenerateAlgorithmR (K : Nat) (rands : Nat → Nat × Nat)
    (stream : List DATA_ITEM) : Option (List (Option SAMPLE_ITEM) × Nat) :=
  match fillReservoir K 0 stream with
  | none => none
  | some (Reservoir, rest) =>
    let final := selectLoop K rands Reservoir (K - 1) rest
    some (final.1, final.2 + 1)

/-- The `SampleIndex` values stored in the reservoir slots (`none` slots,
which never occur after a successful fill, are read as `0`). -/
def reservoirIndices (Reservoir : List (Option SAMPLE_ITEM)) : List Nat :=
  Reservoir.map (fun o => match o with | some s => s.SampleIndex | none => 0)

/-! ## Histogram report (`PrintHistogramSummary`) -/

/-- Bucket creation (lines 283-286): bucket `i` (0-based) has upper bound
`BucketSize * (i+1)`. -/
def mkBuckets (BucketCount BucketSize : Nat) : List BUCKET :=
  (List.range BucketCount).map (fun i => ⟨0, BucketSize * (i + 1)⟩)

/-- The inner bucket scan (lines 296-310): increment the first bucket whose
`MaxValue` is at least the sample's index; if none qualifies the item is
only reported on stdout and no count changes. -/
def addToBucket (idx : Nat) : List BUCKET → List BUCKET
  | [] => []
  | b :: bs =>
    if idx ≤ b.MaxValue then { b with Count := b.Count + 1 } :: bs
    else b :: addToBucket idx bs

/-- The outer reservoir scan of `PrintHistogramSummary` (lines 292-311). -/
def fillBuckets (Reservoir : List SAMPLE_ITEM) (buckets : List BUCKET) : List BUCKET :=
  Reservoir.foldl (fun bs s => addToBucket s.SampleIndex bs) buckets

/-- `PrintHistogramSummary` (lines 270-328) on the `K` dereferenced reservoir
slots: `BucketSize = ItemsRead / BucketCount` (C integer division on
nonnegative longs).  With `BucketCount = 0` the division faults (division by
zero), modelled as `none`. -/
def PrintHistogramSummary (BucketCount : Nat) (Reservoir : List SAMPLE_ITEM)
    (ItemsRead : Nat) : Option (List BUCKET) :=
  if BucketCount = 0 then none
  else some (fillBuckets Reservoir (mkBuckets BucketCount (ItemsRead / BucketCount)))

/-- Total of the bucket counts in the printed histogram. -/
def sumCounts (buckets : List BUCKET) : Nat :=
  (buckets.map BUCKET.Count).sum

/-! ## Command-line validation (`ParseArgs`) -/

/-- The global configuration set by `ParseArgs` (lines 26-35), restricted to
the numeric options the claims are about. -/
structure Config where
  BatchSize : Int
  SelectionType : Int
  ResultCount : Int
  ResultSortType : Int
  BucketCount : Int
deriving DecidableEq

/-- The defaults of the globals (lines 26-35). -/
def defaultConfig : Config :=
  { BatchSize := 1000, SelectionType := 0, ResultCount := 10
    ResultSortType := 0, BucketCount := 4 }

/-- One recognized command-line option with its (already `atol`/`atoi`
converted) value; string handling and the missing-value paths are out of
scope here. -/
inductive CliArg where
  | resultCount (n : Int)
  | batchSize (n : Int)
  | selectionType (n : Int)
  | sortType (n : Int)
  | bucketCount (n : Int)
  | generate (n : Int)
deriving DecidableEq

/-- The validation in `ParseArgs` (lines 901-961): each flag's value check,
with `goto InvalidValue` modelled as `none`.  Note the `-u` case (lines
935-940) rejects only strictly negative bucket counts. -/
def applyArg (c : Config) : CliArg → Option Config
  | CliArg.resultCount n => if n ≤ 0 then none else some { c with ResultCount := n }
  | CliArg.batchSize n => if n ≤ 0 then none else some { c with BatchSize := n }
  | CliArg.selectionType n =>
    if n < 0 ∨ n > 1 then none else some { c with SelectionType := n }
  | CliArg.sortType n =>
    if n < 0 ∨ n > 1 then none else some { c with ResultSortType := n }
  | CliArg.bucketCount n => if n < 0 then none else some { c with BucketCount := n }
  | CliArg.generate n => if n ≤ 0 then none else some c

/-- `ParseArgs` (lines 881-987) over the recognized options, threading the
global configuration; the first invalid value aborts parsing (`none`),
before any input file is opened or read (`ParseArgs` runs before `fopen`
in `main`). -/
def ParseArgs (args : List CliArg) (c : Config) : Option Config :=
  match args with
  | [] => some c
  | a :: rest =>
    match applyArg c a with
    | none => none
    | some c2 => ParseArgs rest c2

/-- The non-strict score order induced by `CompareDescending`: `std::sort`
with strict `>` produces a sequence that is non-increasing, i.e. sorted for
`scoreGe`. -/
abbrev scoreGe (x y : Int) : Prop := y ≤ x

/-- The non-strict score order induced by `CompareAscending`. -/
abbrev scoreLe (x y : Int) : Prop := x ≤ y

instance : IsTotal Int scoreGe := ⟨fun a b => le_total b a⟩

instance : IsTrans Int scoreGe := ⟨fun _ _ _ h1 h2 => le_trans h2 h1⟩

instance : IsAntisymm Int scoreGe := ⟨fun _ _ h1 h2 => le_antisymm h2 h1⟩

instance : IsTotal Int scoreLe := ⟨fun a b => le_total a b⟩

instance : IsTrans Int scoreLe := ⟨fun _ _ _ h1 h2 => le_trans h1 h2⟩

instance : IsAntisymm Int scoreLe := ⟨fun _ _ h1 h2 => le_antisymm h1 h2⟩

/-! Concrete records used in scenario and counterexample theorems; `dA`-`dD`
are the spec's concrete stream `[(a,5),(b,1),(c,9),(d,3)]`. -/

def dA : DATA_ITEM := ⟨"http://a", 5⟩
def dB : DATA_ITEM := ⟨"http://b", 1⟩
def dC : DATA_ITEM := ⟨"http://c", 9⟩
def dD : DATA_ITEM := ⟨"http://d", 3⟩
def dE : DATA_ITEM := ⟨"http://e", 7⟩
def dF : DATA_ITEM := ⟨"http://f", 2⟩

section SanityChecks

example : runBatchTopK 1000 2 CompareDescending [dA, dB, dC, dD] = [dC, dA] := by decide
example : runBatchTopK 1 3 CompareDescending [dA, dB] = [dA] := by decide
example : runBatchTopK 2 2 CompareDescending [dA, dB] = [dA, dB] := by decide
example : GenerateAlgorithmR 10 (fun _ => (0, 0)) [dA, dB, dC] = none := by decide
example : GenerateAlgorithmR 1 (fun _ => (0, 0)) [dA, dB] = some ([some ⟨dB, 1⟩], 2) := by
  decide
example :
    GenerateAlgorithmR 2 (fun _ => (0, 0)) [dA, dB, dC, dD]
      = some ([some ⟨dD, 3⟩, some ⟨dB, 1⟩], 4) := by decide
example : PrintHistogramSummary 4 [⟨dA, 5⟩] 6 = some [⟨0, 1⟩, ⟨0, 2⟩, ⟨0, 3⟩, ⟨0, 4⟩] := by
  decide
example : ParseArgs [CliArg.bucketCount 0] defaultConfig
    = some { defaultConfig with BucketCount := 0 } := by decide
example : ParseArgs [CliArg.resultCount 0] defaultConfig = none := by decide

end SanityChecks

/-! ## Sorted-list theory for the batch pipeline

The candidate vector after each batch is, at score level, the `K`-prefix of
the canonically sorted score multiset of everything read so far.  The key
combinatorial fact is `take_sort_take_append`: truncating to the top `K`
between batches does not change the top `K` of the whole stream. -/

section SortTheory

variable {α : Type} (r : α → α → Prop) [DecidableRel r]

theorem take_cons_take (k : Nat) (x : α) (xs : List α) :
    (x :: xs.take k).take k = (x :: xs).take k := by
  cases k with
  | zero => rfl
  | succ m =>
    simp [List.take_succ_cons, List.take_take, Nat.min_eq_left (Nat.le_succ m)]

theorem take_orderedInsert (b : α) :
    ∀ (s : List α) (K : Nat),
      (List.orderedInsert r b s).take K = (List.orderedInsert r b (s.take K)).take K
  | [], _ => by simp
  | _ :: _, 0 => by simp
  | x :: xs, K + 1 => by
    by_cases h : r b x
    · simp [List.orderedInsert, h, take_cons_take]
    · simp [List.orderedInsert, h, take_orderedInsert b xs K]

variable [IsTotal α r] [IsTrans α r] [IsAntisymm α r]

theorem insertionSort_append_singleton (A : List α) (b : α) :
    (A ++ [b]).insertionSort r = List.orderedInsert r b (A.insertionSort r) := by
  refine List.eq_of_perm_of_sorted ?_ (List.sorted_insertionSort r _) ?_
  · refine (List.perm_insertionSort r _).trans ?_
    refine (List.perm_append_singleton b A).trans ?_
    exact ((List.perm_insertionSort r A).symm.cons b).trans
      (List.perm_orderedInsert r b _).symm
  · exact (List.sorted_insertionSort r A).orderedInsert b _

theorem take_sort_append_singleton (A : List α) (K : Nat) (b : α) :
    (((A.insertionSort r).take K ++ [b]).insertionSort r).take K
      = ((A ++ [b]).insertionSort r).take K := by
  rw [insertionSort_append_singleton r A b,
    insertionSort_append_singleton r ((A.insertionSort r).take K) b,
    List.Sorted.insertionSort_eq (List.Pairwise.take (List.sorted_insertionSort r A)),
    ← take_orderedInsert r b (A.insertionSort r) K]

theorem take_sort_take_append :
    ∀ (B A : List α) (K : Nat),
      (((A.insertionSort r).take K ++ B).insertionSort r).take K
        = ((A ++ B).insertionSort r).take K
  | [], A, K => by
    rw [List.append_nil, List.append_nil,
      List.Sorted.insertionSort_eq (List.Pairwise.take (List.sorted_insertionSort r A)),
      List.take_take, Nat.min_self]
  | b :: B', A, K => by
    have e1 : (A.insertionSort r).take K ++ b :: B'
        = ((A.insertionSort r).take K ++ [b]) ++ B' := by simp
    have e2 : A ++ b :: B' = (A ++ [b]) ++ B' := by simp
    rw [e1, e2, ← take_sort_take_append B' ((A.insertionSort r).take K ++ [b]) K,
      take_sort_append_singleton r A K b,
      take_sort_take_append B' (A ++ [b]) K]

end SortTheory

/-! ## The batch pipeline at score level -/

theorem compareDescending_false_iff (a b : DATA_ITEM) :
    (CompareDescending b a = false) ↔ scoreGe a.LongValue b.LongValue := by
  simp [CompareDescending, scoreGe]

theorem compareAscending_false_iff (a b : DATA_ITEM) :
    (CompareAscending b a = false) ↔ scoreLe a.LongValue b.LongValue := by
  simp [CompareAscending, scoreLe]

theorem stdSort_map_scores (cmp : DATA_ITEM → DATA_ITEM → Bool)
    (r' : Int → Int → Prop) [DecidableRel r']
    (hcmp : ∀ a b : DATA_ITEM, (cmp b a = false) ↔ r' a.LongValue b.LongValue)
    (v : List DATA_ITEM) :
    (stdSort cmp v).map DATA_ITEM.LongValue
      = (v.map DATA_ITEM.LongValue).insertionSort r' :=
  List.map_insertionSort (fun a b => cmp b a = false) r' DATA_ITEM.LongValue v
    (fun a _ b _ => hcmp a b)

theorem runBatches_stable (cmp : DATA_ITEM → DATA_ITEM → Bool)
    (r' : Int → Int → Prop) [DecidableRel r']
    [IsTotal Int r'] [IsTrans Int r'] [IsAntisymm Int r']
    (hcmp : ∀ a b : DATA_ITEM, (cmp b a = false) ↔ r' a.LongValue b.LongValue)
    (K : Nat) :
    ∀ (chunks : List (List DATA_ITEM)) (Q : List Int) (v : List DATA_ITEM),
      K ≤ Q.length →
      v.map DATA_ITEM.LongValue = (Q.insertionSort r').take K →
      (runBatches cmp (v, K) chunks).1.map DATA_ITEM.LongValue
          = ((Q ++ chunks.flatten.map DATA_ITEM.LongValue).insertionSort r').take K
        ∧ (runBatches cmp (v, K) chunks).2 = K
  | [], Q, v, _, hv => by
    refine ⟨?_, rfl⟩
    simpa [runBatches] using hv
  | c :: cs, Q, v, hQ, hv => by
    have hvlen : v.length = K := by
      have h := congrArg List.length hv
      simpa [List.length_take, List.length_insertionSort, Nat.min_eq_left hQ] using h
    have hslen : (stdSort cmp (v ++ c)).length = K + c.length := by
      simp [stdSort, List.length_insertionSort, hvlen]
    have hstep : processBatch cmp (v, K) c = ((stdSort cmp (v ++ c)).take K, K) := by
      simp only [processBatch, hslen]
      rw [if_neg (by omega)]
    have hv' : ((stdSort cmp (v ++ c)).take K).map DATA_ITEM.LongValue
        = ((Q ++ c.map DATA_ITEM.LongValue).insertionSort r').take K := by
      rw [List.map_take, stdSort_map_scores cmp r' hcmp,
        List.map_append, hv, take_sort_take_append r' (c.map DATA_ITEM.LongValue) Q K]
    have hrec := runBatches_stable cmp r' hcmp K cs (Q ++ c.map DATA_ITEM.LongValue)
      ((stdSort cmp (v ++ c)).take K) (le_trans hQ (by simp)) hv'
    have hrun : runBatches cmp (v, K) (c :: cs)
        = runBatches cmp ((stdSort cmp (v ++ c)).take K, K) cs := by
      rw [show runBatches cmp (v, K) (c :: cs)
          = runBatches cmp (processBatch cmp (v, K) c) cs from rfl, hstep]
    refine ⟨?_, by rw [hrun]; exact hrec.2⟩
    rw [hrun, hrec.1]
    simp [List.append_assoc]

theorem chunksGo_flatten (b : Nat) (hb : 1 ≤ b) :
    ∀ (fuel : Nat) (s : List DATA_ITEM), s.length ≤ fuel → (chunksGo b fuel s).flatten = s
  | fuel, [], _ => by cases fuel <;> rfl
  | 0, _ :: _, h => by simp at h
  | fuel + 1, x :: xs, h => by
    have hrec : ((x :: xs).drop b).length ≤ fuel := by
      simp only [List.length_drop] at *
      simp only [List.length_cons] at h ⊢
      omega
    have hgo : chunksGo b (fuel + 1) (x :: xs)
        = (x :: xs).take b :: chunksGo b fuel ((x :: xs).drop b) := rfl
    rw [hgo, List.flatten_cons, chunksGo_flatten b hb fuel _ hrec, List.take_append_drop]

theorem runBatchTopK_single (cmp : DATA_ITEM → DATA_ITEM → Bool) (b K : Nat)
    (s : List DATA_ITEM) (hb : s.length ≤ b) :
    runBatchTopK b K cmp s = (stdSort cmp s).take (min s.length K) := by
  cases s with
  | nil => cases K <;> rfl
  | cons x xs =>
    have h1 : chunkStream b (x :: xs) = [x :: xs] := by
      have hgo : chunkStream b (x :: xs)
          = (x :: xs).take b :: chunksGo b xs.length ((x :: xs).drop b) := rfl
      rw [hgo, List.take_of_length_le hb, List.drop_eq_nil_of_le hb]
      cases xs <;> rfl
    have hmin : (if (stdSort cmp (x :: xs)).length < K
        then (stdSort cmp (x :: xs)).length else K) = min (x :: xs).length K := by
      have hlen : (stdSort cmp (x :: xs)).length = (x :: xs).length := by
        simp only [stdSort, List.length_insertionSort]
      rw [hlen, Nat.min_def]
      split <;> split <;> omega
    simp only [runBatchTopK, h1, runBatches, List.foldl_cons, List.foldl_nil,
      processBatch, List.nil_append]
    rw [hmin]

theorem runBatchTopK_scores (cmp : DATA_ITEM → DATA_ITEM → Bool)
    (r' : Int → Int → Prop) [DecidableRel r']
    [IsTotal Int r'] [IsTrans Int r'] [IsAntisymm Int r']
    (hcmp : ∀ a b : DATA_ITEM, (cmp b a = false) ↔ r' a.LongValue b.LongValue)
    (b K : Nat) (s : List DATA_ITEM) (hK : 1 ≤ K) (hbK : K ≤ b) :
    (runBatchTopK b K cmp s).map DATA_ITEM.LongValue
      = ((s.map DATA_ITEM.LongValue).insertionSort r').take K := by
  by_cases hsb : s.length ≤ b
  · rw [runBatchTopK_single cmp b K s hsb, List.map_take, stdSort_map_scores cmp r' hcmp]
    rcases Nat.le_total s.length K with hsK | hKs
    · rw [Nat.min_eq_left hsK, List.take_of_length_le, List.take_of_length_le]
      · simp [List.length_insertionSort, hsK]
      · simp [List.length_insertionSort]
    · rw [Nat.min_eq_right hKs]
  · cases s with
    | nil => simp at hsb
    | cons x xs =>
      have hb1 : 1 ≤ b := le_trans hK hbK
      have hchunk : chunkStream b (x :: xs)
          = (x :: xs).take b :: chunksGo b xs.length ((x :: xs).drop b) := rfl
      have hflat : (chunksGo b xs.length ((x :: xs).drop b)).flatten = (x :: xs).drop b := by
        refine chunksGo_flatten b hb1 xs.length _ ?_
        simp only [List.length_drop, List.length_cons]
        omega
      have hc1len : ((x :: xs).take b).length = b := by
        simp only [List.length_take]
        omega
      have hslen : (stdSort cmp ([] ++ (x :: xs).take b)).length = b := by
        simp [stdSort, List.length_insertionSort, hc1len]
      have hstep : processBatch cmp ([], K) ((x :: xs).take b)
          = ((stdSort cmp ((x :: xs).take b)).take K, K) := by
        simp only [processBatch, hslen]
        rw [if_neg (by omega)]
        simp
      have hv1 : ((stdSort cmp ((x :: xs).take b)).take K).map DATA_ITEM.LongValue
          = ((((x :: xs).take b).map DATA_ITEM.LongValue).insertionSort r').take K := by
        rw [List.map_take, stdSort_map_scores cmp r' hcmp]
      have hmain := runBatches_stable cmp r' hcmp K
        (chunksGo b xs.length ((x :: xs).drop b))
        (((x :: xs).take b).map DATA_ITEM.LongValue)
        ((stdSort cmp ((x :: xs).take b)).take K)
        (by rw [List.length_map, hc1len]; exact hbK) hv1
      have hrun : runBatchTopK b K cmp (x :: xs)
          = (runBatches cmp ((stdSort cmp ((x :: xs).take b)).take K, K)
              (chunksGo b xs.length ((x :: xs).drop b))).1 := by
        rw [runBatchTopK, hchunk]
        rw [show runBatches cmp ([], K) ((x :: xs).take b :: chunksGo b xs.length ((x :: xs).drop b))
            = runBatches cmp (processBatch cmp ([], K) ((x :: xs).take b))
                (chunksGo b xs.length ((x :: xs).drop b)) from rfl, hstep]
      rw [hrun, hmain.1, hflat, ← List.map_append, List.take_append_drop]

theorem processBatch_resultCount (cmp : DATA_ITEM → DATA_ITEM → Bool)
    (st : List DATA_ITEM × Nat) (c : List DATA_ITEM) :
    (processBatch cmp st c).2 = min (st.1 ++ c).length st.2 := by
  simp only [processBatch, stdSort, List.length_insertionSort]
  split <;> omega

theorem runBatches_resultCount_le (cmp : DATA_ITEM → DATA_ITEM → Bool) :
    ∀ (bs : List (List DATA_ITEM)) (st : List DATA_ITEM × Nat),
      (runBatches cmp st bs).2 ≤ st.2
  | [], _ => le_refl _
  | c :: bs, st => by
    refine le_trans (runBatches_resultCount_le cmp bs (processBatch cmp st c)) ?_
    simp only [processBatch]
    split <;> omega

/-! ## Reservoir-run invariants -/

theorem fillReservoir_eq_none : ∀ (n i : Nat) (s : List DATA_ITEM),
    fillReservoir n i s = none ↔ s.length < n
  | 0, _, s => by simp [fillReservoir]
  | _ + 1, _, [] => by simp [fillReservoir]
  | n + 1, i, d :: s => by
    have ih := fillReservoir_eq_none n (i + 1) s
    cases h : fillReservoir n (i + 1) s with
    | none =>
      have hlt := ih.mp h
      simp only [fillReservoir, h, List.length_cons]
      exact ⟨fun _ => by omega, fun _ => by trivial⟩
    | some pr =>
      obtain ⟨res, rest⟩ := pr
      have hge : ¬ s.length < n := fun hc => by
        rw [ih.mpr hc] at h
        cases h
      simp only [fillReservoir, h, List.length_cons]
      constructor
      · intro hc
        cases hc
      · intro hc
        omega

theorem fillReservoir_some : ∀ (n i : Nat) (s : List DATA_ITEM)
    (R : List (Option SAMPLE_ITEM)) (rest : List DATA_ITEM),
    fillReservoir n i s = some (R, rest) →
    R.length = n ∧ reservoirIndices R = List.range' i n ∧ (∀ o ∈ R, o.isSome = true)
  | 0, i, s, R, rest, h => by
    simp only [fillReservoir, Option.some.injEq, Prod.mk.injEq] at h
    obtain ⟨hR, _⟩ := h
    subst hR
    exact ⟨rfl, rfl, by simp⟩
  | _ + 1, _, [], _, _, h => by simp [fillReservoir] at h
  | n + 1, i, d :: s, R, rest, h => by
    cases hrec : fillReservoir n (i + 1) s with
    | none =>
      rw [fillReservoir, hrec] at h
      cases h
    | some pr =>
      obtain ⟨res, rest'⟩ := pr
      rw [fillReservoir, hrec] at h
      simp only [Option.some.injEq, Prod.mk.injEq] at h
      obtain ⟨hR, _⟩ := h
      subst hR
      obtain ⟨ih1, ih2, ih3⟩ := fillReservoir_some n (i + 1) s res rest' hrec
      refine ⟨by simp [ih1], ?_, ?_⟩
      · simp only [reservoirIndices, List.map_cons] at ih2 ⊢
        rw [ih2, List.range'_succ]
      · intro o ho
        rcases List.mem_cons.mp ho with hh | ht
        · subst hh
          rfl
        · exact ih3 o ht

theorem reservoirIndices_set (R : List (Option SAMPLE_ITEM)) (n : Nat) (smp : SAMPLE_ITEM) :
    reservoirIndices (R.set n (some smp)) = (reservoirIndices R).set n smp.SampleIndex := by
  simp [reservoirIndices, List.map_set]

theorem nodup_set_of_lt : ∀ (L : List Nat) (n v : Nat),
    L.Nodup → (∀ x ∈ L, x < v) → (L.set n v).Nodup
  | [], _, _, _, _ => by simp
  | a :: t, 0, v, h, hb => by
    simp only [List.set]
    rw [List.nodup_cons]
    exact ⟨fun hc => absurd (hb v (List.mem_cons_of_mem a hc)) (lt_irrefl v),
      (List.nodup_cons.mp h).2⟩
  | a :: t, n + 1, v, h, hb => by
    simp only [List.set]
    rw [List.nodup_cons] at h ⊢
    refine ⟨?_, nodup_set_of_lt t n v h.2 (fun x hx => hb x (List.mem_cons_of_mem a hx))⟩
    intro hc
    rcases List.mem_or_eq_of_mem_set hc with hmem | heq
    · exact h.1 hmem
    · exact absurd (hb a (List.mem_cons_self a t)) (by rw [heq]; exact lt_irrefl v)

theorem selectLoop_inv (K : Nat) (rands : Nat → Nat × Nat) :
    ∀ (rest : List DATA_ITEM) (R : List (Option SAMPLE_ITEM)) (i : Nat),
      R.length = K → (∀ o ∈ R, o.isSome = true) →
      (∀ x ∈ reservoirIndices R, x ≤ i) → (reservoirIndices R).Nodup →
      (selectLoop K rands R i rest).1.length = K ∧
        (∀ o ∈ (selectLoop K rands R i rest).1, o.isSome = true) ∧
        (∀ x ∈ reservoirIndices (selectLoop K rands R i rest).1,
          x ≤ (selectLoop K rands R i rest).2) ∧
        (reservoirIndices (selectLoop K rands R i rest).1).Nodup
  | [], _, _, h1, h2, h3, h4 => ⟨h1, h2, h3, h4⟩
  | d :: rest, R, i, h1, h2, h3, h4 => by
    have hloop : selectLoop K rands R i (d :: rest)
        = selectLoop K rands
            (selectStep K R (i + 1) d (rands (i + 1)).1 (rands (i + 1)).2) (i + 1) rest := rfl
    set R' := selectStep K R (i + 1) d (rands (i + 1)).1 (rands (i + 1)).2 with hR'
    have l1 : R'.length = K := by
      rw [hR', selectStep]
      split
      · simp [List.length_set, h1]
      · exact h1
    have l2 : ∀ o ∈ R', o.isSome = true := by
      intro o ho
      rw [hR', selectStep] at ho
      revert ho
      split
      · intro ho
        rcases List.mem_or_eq_of_mem_set ho with hmem | heq
        · exact h2 o hmem
        · subst heq
          rfl
      · intro ho
        exact h2 o ho
    have l3 : ∀ x ∈ reservoirIndices R', x ≤ i + 1 := by
      intro x hx
      rw [hR', selectStep] at hx
      revert hx
      split
      · rw [reservoirIndices_set]
        intro hx
        rcases List.mem_or_eq_of_mem_set hx with hmem | heq
        · exact le_trans (h3 x hmem) (Nat.le_succ i)
        · subst heq
          show i + 1 ≤ i + 1
          exact Nat.le_refl _
      · intro hx
        exact le_trans (h3 x hx) (Nat.le_succ i)
    have l4 : (reservoirIndices R').Nodup := by
      rw [hR', selectStep]
      split
      · rw [reservoirIndices_set]
        refine nodup_set_of_lt _ _ _ h4 ?_
        intro x hx
        have hle := h3 x hx
        show x < i + 1
        omega
      · exact h4
    rw [hloop]
    exact selectLoop_inv K rands rest R' (i + 1) l1 l2 l3 l4

theorem GenerateAlgorithmR_invariant (K : Nat) (rands : Nat → Nat × Nat)
    (stream : List DATA_ITEM) (R : List (Option SAMPLE_ITEM)) (total : Nat)
    (hK : 1 ≤ K) (h : GenerateAlgorithmR K rands stream = some (R, total)) :
    R.length = K ∧ (∀ o ∈ R, o.isSome = true) ∧
      (∀ x ∈ reservoirIndices R, x < total) ∧ (reservoirIndices R).Nodup := by
  cases hfill : fillReservoir K 0 stream with
  | none =>
    rw [GenerateAlgorithmR, hfill] at h
    cases h
  | some pr =>
    obtain ⟨R0, rest⟩ := pr
    rw [GenerateAlgorithmR, hfill] at h
    simp only [Option.some.injEq, Prod.mk.injEq] at h
    obtain ⟨hR, htotal⟩ := h
    obtain ⟨f1, f2, f3⟩ := fillReservoir_some K 0 stream R0 rest hfill
    have hidx : reservoirIndices R0 = List.range K := by
      rw [f2, List.range_eq_range']
    have hb : ∀ x ∈ reservoirIndices R0, x ≤ K - 1 := by
      intro x hx
      rw [hidx, List.mem_range] at hx
      omega
    have hnd : (reservoirIndices R0).Nodup := by
      rw [hidx]
      exact List.nodup_range K
    obtain ⟨i1, i2, i3, i4⟩ := selectLoop_inv K rands rest R0 (K - 1) f1 f3 hb hnd
    subst hR
    refine ⟨i1, i2, ?_, i4⟩
    intro x hx
    have := i3 x hx
    omega

theorem GenerateAlgorithmR_short_none (K : Nat) (rands : Nat → Nat × Nat)
    (stream : List DATA_ITEM) (h : stream.length < K) :
    GenerateAlgorithmR K rands stream = none := by
  have hf : fillReservoir K 0 stream = none := (fillReservoir_eq_none K 0 stream).mpr h
  rw [GenerateAlgorithmR, hf]

/-! ## Histogram lemmas -/

theorem addToBucket_maxValues (idx : Nat) :
    ∀ (bs : List BUCKET), (addToBucket idx bs).map BUCKET.MaxValue = bs.map BUCKET.MaxValue
  | [] => rfl
  | b :: bs => by
    by_cases h : idx ≤ b.MaxValue
    · simp [addToBucket, h]
    · simp [addToBucket, h, addToBucket_maxValues idx bs]

theorem sumCounts_addToBucket (idx : Nat) :
    ∀ (bs : List BUCKET), (∃ m ∈ bs.map BUCKET.MaxValue, idx ≤ m) →
      sumCounts (addToBucket idx bs) = sumCounts bs + 1
  | [], h => by simp at h
  | b :: bs, h => by
    by_cases hb : idx ≤ b.MaxValue
    · simp only [addToBucket, hb, if_pos, sumCounts, List.map_cons, List.sum_cons]
      omega
    · have h' : ∃ m ∈ bs.map BUCKET.MaxValue, idx ≤ m := by
        rcases h with ⟨m, hm, hle⟩
        simp only [List.map_cons, List.mem_cons] at hm
        rcases hm with heq | hmem
        · subst heq
          exact absurd hle hb
        · exact ⟨m, hmem, hle⟩
      simp only [addToBucket, hb, if_neg, ite_false, sumCounts, List.map_cons, List.sum_cons]
      have := sumCounts_addToBucket idx bs h'
      simp only [sumCounts] at this
      omega

theorem sumCounts_fillBuckets :
    ∀ (samples : List SAMPLE_ITEM) (bs : List BUCKET),
      (∀ s ∈ samples, ∃ m ∈ bs.map BUCKET.MaxValue, s.SampleIndex ≤ m) →
      sumCounts (fillBuckets samples bs) = sumCounts bs + samples.length
  | [], bs, _ => by simp [fillBuckets]
  | s :: samples, bs, h => by
    have h0 := h s (List.mem_cons_self s samples)
    have h' : ∀ t ∈ samples,
        ∃ m ∈ (addToBucket s.SampleIndex bs).map BUCKET.MaxValue, t.SampleIndex ≤ m := by
      intro t ht
      rw [addToBucket_maxValues]
      exact h t (List.mem_cons_of_mem s ht)
    have hstep : fillBuckets (s :: samples) bs
        = fillBuckets samples (addToBucket s.SampleIndex bs) := rfl
    rw [hstep, sumCounts_fillBuckets samples _ h', sumCounts_addToBucket _ _ h0,
      List.length_cons]
    omega

theorem mkBuckets_maxValues (BucketCount BucketSize : Nat) :
    (mkBuckets BucketCount BucketSize).map BUCKET.MaxValue
      = (List.range BucketCount).map (fun i => BucketSize * (i + 1)) := by
  simp [mkBuckets, List.map_map, Function.comp]

theorem mkBuckets_last_mem (BucketCount BucketSize : Nat) (h : 1 ≤ BucketCount) :
    BucketSize * BucketCount ∈ (mkBuckets BucketCount BucketSize).map BUCKET.MaxValue := by
  rw [mkBuckets_maxValues]
  exact List.mem_map.mpr ⟨BucketCount - 1, List.mem_range.mpr (by omega),
    by rw [Nat.sub_add_cancel h]⟩

theorem sum_map_zero {α : Type} : ∀ l : List α, (l.map (fun _ => (0 : Nat))).sum = 0
  | [] => rfl
  | x :: l => by simp [sum_map_zero l]

theorem sumCounts_mkBuckets (BucketCount BucketSize : Nat) :
    sumCounts (mkBuckets BucketCount BucketSize) = 0 := by
  simp only [sumCounts, mkBuckets, List.map_map]
  rw [show (BUCKET.Count ∘ fun i => (⟨0, BucketSize * (i + 1)⟩ : BUCKET))
      = fun _ => (0 : Nat) from rfl]
  exact sum_map_zero _

theorem PrintHistogramSummary_sum (BucketCount : Nat) (samples : List SAMPLE_ITEM)
    (ItemsRead : Nat) (hbc : 1 ≤ BucketCount)
    (hidx : ∀ s ∈ samples, s.SampleIndex ≤ (ItemsRead / BucketCount) * BucketCount) :
    ∃ bs, PrintHistogramSummary BucketCount samples ItemsRead = some bs
      ∧ sumCounts bs = samples.length := by
  have hmem : ∀ s ∈ samples,
      ∃ m ∈ (mkBuckets BucketCount (ItemsRead / BucketCount)).map BUCKET.MaxValue,
        s.SampleIndex ≤ m := by
    intro s hs
    exact ⟨(ItemsRead / BucketCount) * BucketCount,
      mkBuckets_last_mem BucketCount (ItemsRead / BucketCount) hbc, hidx s hs⟩
  refine ⟨_, by rw [PrintHistogramSummary, if_neg (by omega)], ?_⟩
  rw [sumCounts_fillBuckets samples _ hmem, sumCounts_mkBuckets, Nat.zero_add]

theorem filterMap_id_of_all_some :
    ∀ (R : List (Option SAMPLE_ITEM)), (∀ o ∈ R, o.isSome = true) →
      (R.filterMap id).length = R.length ∧
        (R.filterMap id).map SAMPLE_ITEM.SampleIndex = reservoirIndices R
  | [], _ => ⟨rfl, rfl⟩
  | o :: R, h => by
    have ih := filterMap_id_of_all_some R (fun x hx => h x (List.mem_cons_of_mem o hx))
    cases o with
    | none =>
      have := h none (List.mem_cons_self none R)
      simp at this
    | some smp =>
      have hcons : (some smp :: R).filterMap id = smp :: R.filterMap id :=
        List.filterMap_cons_some (f := id) rfl
      refine ⟨?_, ?_⟩
      · rw [hcons, List.length_cons, List.length_cons, ih.1]
      · rw [hcons, List.map_cons]
        simp only [reservoirIndices, List.map_cons]
        rw [ih.2]
        rfl

/-! ## Claim theorems -/

/-- C1 (code_bug evidence): the replacement step draws
`RandomValue = raw % SampleIndex`, a value in `[0, i-1]` for the record at
0-based arrival index `i = SampleIndex`, not in `[0, i]` as Algorithm R
requires; the retention probability is `K/i`, not `K/(i+1)`.  Witnessed at
`K = 1` on a two-record stream: the second record (arrival index 1) computes
`raw % 1 = 0 ≤ K-1` and is retained for EVERY possible random draw, i.e.
with probability 1, where the claim (and Algorithm R) require probability
`K/(i+1) = 1/2` under any uniform source. -/
theorem C1_second_record_always_retained :
    ∀ rands : Nat → Nat × Nat,
      GenerateAlgorithmR 1 rands [dA, dB] = some ([some ⟨dB, 1⟩], 2) := by
  intro rands
  have hfill : fillReservoir 1 0 [dA, dB] = some ([some ⟨dA, 0⟩], [dB]) := rfl
  simp only [GenerateAlgorithmR, hfill]
  have hloop : selectLoop 1 rands [some ⟨dA, 0⟩] (1 - 1) [dB]
      = (selectStep 1 [some ⟨dA, 0⟩] 1 dB (rands 1).1 (rands 1).2, 1) := rfl
  rw [hloop]
  simp [selectStep, selectDecision, Nat.mod_one, List.set]

/-- C2 counterexample: in reservoir mode a stream of 3 records with K = 10
does NOT end normally with the 3 records retained: the initial fill loop
takes `goto Failed` on the first NULL record and the whole run fails. -/
theorem C2_counterexample :
    GenerateAlgorithmR 10 (fun _ => (0, 0)) [dA, dB, dC] = none := by decide

/-- C2 amended: if the source yields fewer than K records, the reservoir run
aborts with failure (returns false / `none`); no degenerate full-retention
result is produced. -/
theorem C2_amended : ∀ (K : Nat) (rands : Nat → Nat × Nat) (stream : List DATA_ITEM),
    stream.length < K → GenerateAlgorithmR K rands stream = none := by
  intro K rands stream h
  exact GenerateAlgorithmR_short_none K rands stream h

/-- Witness for C2_amended at K = 5, a one-record stream. -/
theorem C2_amended_witness :
    GenerateAlgorithmR 5 (fun _ => (0, 0)) [dA] = none :=
  C2_amended 5 (fun _ => (0, 0)) [dA] (by decide)

/-- C3 counterexample: with batchSize = 1, K = 2 and the stream
`[(a,5),(b,1)]` (N = 2 ≥ K), the first batch has only 1 record, so
`ResultCount` ratchets down to 1 and the final result is `[(a,5)]` — not
the K = 2 highest-scoring records. -/
theorem C3_counterexample :
    runBatchTopK 1 2 CompareDescending [dA, dB] = [dA]
      ∧ ¬ (runBatchTopK 1 2 CompareDescending [dA, dB]).length = 2 := by decide

/-- C3 amended: provided `batchSize ≥ K` (so that the ratchet never fires on
an early small batch), for every stream of N ≥ K records the result consists
of exactly K records and its score list equals the K-prefix of the
canonically sorted (descending for `CompareDescending`, ascending for
`CompareAscending`) score list of the whole stream — in particular the
multiset of result scores is exactly determined even under ties.  The spec's
concrete instance holds with the default batch size 1000. -/
theorem C3_amended :
    (∀ (b K : Nat) (s : List DATA_ITEM), 1 ≤ K → K ≤ b → K ≤ s.length →
      (runBatchTopK b K CompareDescending s).map DATA_ITEM.LongValue
          = ((s.map DATA_ITEM.LongValue).insertionSort scoreGe).take K
        ∧ (runBatchTopK b K CompareAscending s).map DATA_ITEM.LongValue
          = ((s.map DATA_ITEM.LongValue).insertionSort scoreLe).take K
        ∧ (runBatchTopK b K CompareDescending s).length = K
        ∧ (runBatchTopK b K CompareAscending s).length = K)
    ∧ runBatchTopK 1000 2 CompareDescending [dA, dB, dC, dD] = [dC, dA] := by
  constructor
  · intro b K s hK hb hN
    have hd := runBatchTopK_scores CompareDescending scoreGe
      compareDescending_false_iff b K s hK hb
    have ha := runBatchTopK_scores CompareAscending scoreLe
      compareAscending_false_iff b K s hK hb
    refine ⟨hd, ha, ?_, ?_⟩
    · have hh := congrArg List.length hd
      simpa [List.length_map, List.length_take, List.length_insertionSort,
        Nat.min_eq_left hN] using hh
    · have hh := congrArg List.length ha
      simpa [List.length_map, List.length_take, List.length_insertionSort,
        Nat.min_eq_left hN] using hh
  · decide

/-- Witness for C3_amended: batchSize 2 = K on the spec's 4-record stream
keeps exactly 2 records. -/
theorem C3_amended_witness :
    (runBatchTopK 2 2 CompareDescending [dA, dB, dC, dD]).length = 2 :=
  (C3_amended.1 2 2 [dA, dB, dC, dD] (by decide) (by decide) (by decide)).2.2.1

/-- C4 counterexample: a completed reservoir run with K = 1 over 6 records
(always-replace draws) retains arrival index 5; with bucketCount = 4 the
bucket bounds are 1,2,3,4 (`BucketSize = 6/4 = 1`), index 5 fits no bucket,
and the counts sum to 0 ≠ K = 1. -/
theorem C4_counterexample :
    GenerateAlgorithmR 1 (fun _ => (0, 0)) [dA, dB, dC, dD, dE, dF]
        = some ([some ⟨dF, 5⟩], 6)
      ∧ PrintHistogramSummary 4 [⟨dF, 5⟩] 6
          = some [⟨0, 1⟩, ⟨0, 2⟩, ⟨0, 3⟩, ⟨0, 4⟩]
      ∧ sumCounts [(⟨0, 1⟩ : BUCKET), ⟨0, 2⟩, ⟨0, 3⟩, ⟨0, 4⟩] = 0 := by decide

/-- C4 amended: for a valid configuration (K ≥ 1, bucketCount ≥ 1) and a
completed reservoir run, the histogram bucket counts sum to exactly K
provided `bucketCount` divides `totalRead` (the general condition is that
every retained arrival index is at most
`(totalRead / bucketCount) * bucketCount`, the last bucket bound); samples
past the last bound are reported unassigned and drop out of the sum. -/
theorem C4_amended : ∀ (K BucketCount : Nat) (rands : Nat → Nat × Nat)
    (stream : List DATA_ITEM) (R : List (Option SAMPLE_ITEM)) (total : Nat),
    1 ≤ K → 1 ≤ BucketCount →
    GenerateAlgorithmR K rands stream = some (R, total) →
    BucketCount ∣ total →
    ∃ bs, PrintHistogramSummary BucketCount (R.filterMap id) total = some bs
      ∧ sumCounts bs = K := by
  intro K BC rands stream R total hK hBC hrun hdvd
  obtain ⟨hlen, hsome, hbound, _⟩ := GenerateAlgorithmR_invariant K rands stream R total hK hrun
  obtain ⟨hflen, hfmap⟩ := filterMap_id_of_all_some R hsome
  have hidx : ∀ s ∈ R.filterMap id, s.SampleIndex ≤ (total / BC) * BC := by
    intro s hs
    have hmem : s.SampleIndex ∈ (R.filterMap id).map SAMPLE_ITEM.SampleIndex :=
      List.mem_map_of_mem _ hs
    rw [hfmap] at hmem
    have hlt := hbound _ hmem
    rw [Nat.div_mul_cancel hdvd]
    omega
  obtain ⟨bs, h1, h2⟩ := PrintHistogramSummary_sum BC (R.filterMap id) total hBC hidx
  exact ⟨bs, h1, by rw [h2, hflen, hlen]⟩

/-- Witness for C4_amended: K = 2, bucketCount = 2, a 4-record run
(2 divides totalRead = 4). -/
theorem C4_amended_witness :
    ∃ bs, PrintHistogramSummary 2
        (([some ⟨dD, 3⟩, some ⟨dB, 1⟩] : List (Option SAMPLE_ITEM)).filterMap id) 4
        = some bs ∧ sumCounts bs = 2 :=
  C4_amended 2 2 (fun _ => (0, 0)) [dA, dB, dC, dD] [some ⟨dD, 3⟩, some ⟨dB, 1⟩] 4
    (by decide) (by decide) (by decide) (by decide)

/-- C5 (code_bug evidence): `-n 0` and `-b 0` are rejected and a negative
bucket count is rejected, but `-u 0` is ACCEPTED (`ParseArgs` checks
`BucketCount < 0`, not `≤ 0`), contradicting the claim; the accepted zero
then reaches `ItemsRead / BucketCount` in `PrintHistogramSummary`, a
division by zero (modelled as `none`). -/
theorem C5_bucket_count_zero_accepted :
    ParseArgs [CliArg.resultCount 0] defaultConfig = none
      ∧ ParseArgs [CliArg.batchSize 0] defaultConfig = none
      ∧ ParseArgs [CliArg.bucketCount (-1)] defaultConfig = none
      ∧ ParseArgs [CliArg.bucketCount 0] defaultConfig
          = some { defaultConfig with BucketCount := 0 }
      ∧ PrintHistogramSummary 0 [⟨dA, 0⟩] 1 = none := by decide

/-- C6 counterexample: N = 2 < K = 3 but with batchSize = 1 the ratchet
fires after the first one-record batch, so the result has 1 record, not
N = 2. -/
theorem C6_counterexample :
    runBatchTopK 1 3 CompareDescending [dA, dB] = [dA]
      ∧ ¬ (runBatchTopK 1 3 CompareDescending [dA, dB]).length = 2 := by decide

/-- C6 amended: for any comparator, a stream of N < K records read in a
single batch (batchSize ≥ N) yields a result of size exactly N containing
every input record (a permutation of the stream); the final
`PrintVectorData` call succeeds exactly when N ≥ 1 — for N = 0 it reads
`at(0)` of an empty vector and the process aborts. -/
theorem C6_amended : ∀ (cmp : DATA_ITEM → DATA_ITEM → Bool) (b K : Nat)
    (s : List DATA_ITEM), s.length < K → s.length ≤ b →
    (runBatchTopK b K cmp s).length = s.length
      ∧ (runBatchTopK b K cmp s).Perm s
      ∧ (PrintVectorData (runBatchTopK b K cmp s) = some true ↔ s ≠ []) := by
  intro cmp b K s hK hb
  have hrun : runBatchTopK b K cmp s = (stdSort cmp s).take (min s.length K) :=
    runBatchTopK_single cmp b K s hb
  have hfull : runBatchTopK b K cmp s = stdSort cmp s := by
    rw [hrun, Nat.min_eq_left (le_of_lt hK)]
    exact List.take_of_length_le (by simp only [stdSort, List.length_insertionSort]; omega)
  refine ⟨?_, ?_, ?_⟩
  · rw [hfull]
    simp only [stdSort, List.length_insertionSort]
  · rw [hfull]
    exact List.perm_insertionSort _ s
  · rw [hfull]
    constructor
    · intro hp hnil
      rw [hnil] at hp
      exact Option.noConfusion hp
    · intro hne
      cases hsort : stdSort cmp s with
      | nil =>
        exfalso
        apply hne
        have hh := congrArg List.length hsort
        simp only [stdSort, List.length_insertionSort, List.length_nil] at hh
        exact List.length_eq_zero.mp hh
      | cons y ys => rfl

/-- Witness for C6_amended: 3 records, K = 10, one batch of (up to) 1000. -/
theorem C6_amended_witness :
    (runBatchTopK 1000 10 CompareDescending [dA, dB, dC]).length = 3 :=
  (C6_amended CompareDescending 1000 10 [dA, dB, dC] (by decide) (by decide)).1

/-- C7 counterexample: on the 2-record stream with K = 2, one giant batch
(batchSize = N = 2) keeps both records while batchSize = 1 ratchets K down
to 1 and keeps one — different result sets. -/
theorem C7_counterexample :
    runBatchTopK 2 2 CompareDescending [dA, dB] = [dA, dB]
      ∧ runBatchTopK 1 2 CompareDescending [dA, dB] = [dA]
      ∧ runBatchTopK 2 2 CompareDescending [dA, dB]
          ≠ runBatchTopK 1 2 CompareDescending [dA, dB] := by decide

/-- C7 amended: provided both batch sizes are at least K, any two batch
partitionings of the same stream produce the same result score list (ties
may still select different equal-scored records, but the scores agree). -/
theorem C7_amended : ∀ (b1 b2 K : Nat) (s : List DATA_ITEM),
    1 ≤ K → K ≤ b1 → K ≤ b2 →
    (runBatchTopK b1 K CompareDescending s).map DATA_ITEM.LongValue
        = (runBatchTopK b2 K CompareDescending s).map DATA_ITEM.LongValue
      ∧ (runBatchTopK b1 K CompareAscending s).map DATA_ITEM.LongValue
        = (runBatchTopK b2 K CompareAscending s).map DATA_ITEM.LongValue := by
  intro b1 b2 K s hK h1 h2
  constructor
  · rw [runBatchTopK_scores CompareDescending scoreGe compareDescending_false_iff b1 K s hK h1,
      runBatchTopK_scores CompareDescending scoreGe compareDescending_false_iff b2 K s hK h2]
  · rw [runBatchTopK_scores CompareAscending scoreLe compareAscending_false_iff b1 K s hK h1,
      runBatchTopK_scores CompareAscending scoreLe compareAscending_false_iff b2 K s hK h2]

/-- Witness for C7_amended: giant batch (4) versus batches of 2, K = 2. -/
theorem C7_amended_witness :
    (runBatchTopK 4 2 CompareDescending [dA, dB, dC, dD]).map DATA_ITEM.LongValue
      = (runBatchTopK 2 2 CompareDescending [dA, dB, dC, dD]).map DATA_ITEM.LongValue :=
  (C7_amended 4 2 2 [dA, dB, dC, dD] (by decide) (by decide) (by decide)).1

/-- C8: after each batch the new `ResultCount` is the minimum of the old one
and the candidate-set size (so it drops to the candidate count whenever the
set is smaller), and over any continuation of the run the `ResultCount`
component never increases — a one-way ratchet. -/
theorem C8_resultCount_ratchet :
    ∀ (cmp : DATA_ITEM → DATA_ITEM → Bool) (st : List DATA_ITEM × Nat)
      (c : List DATA_ITEM) (bs1 bs2 : List (List DATA_ITEM)),
      (processBatch cmp st c).2 = min (st.1 ++ c).length st.2
        ∧ (runBatches cmp st (bs1 ++ bs2)).2 ≤ (runBatches cmp st bs1).2 := by
  intro cmp st c bs1 bs2
  refine ⟨processBatch_resultCount cmp st c, ?_⟩
  rw [runBatches, List.foldl_append]
  exact runBatches_resultCount_le cmp bs2 _

/-- C9: every successful reservoir run (over any stream, hence at every
intermediate point of a longer run, which is the final state of the run on
the truncated stream) has pairwise distinct `SampleIndex` values in its
slots: the fill assigns `0..K-1` and each replacement writes a strictly
larger fresh index into one slot. -/
theorem C9_arrival_indices_distinct : ∀ (K : Nat) (rands : Nat → Nat × Nat)
    (stream : List DATA_ITEM) (R : List (Option SAMPLE_ITEM)) (total : Nat),
    1 ≤ K → GenerateAlgorithmR K rands stream = some (R, total) →
    (reservoirIndices R).Nodup := by
  intro K rands stream R total hK h
  exact (GenerateAlgorithmR_invariant K rands stream R total hK h).2.2.2

/-- Witness for C9 on a concrete K = 2 run over four records. -/
theorem C9_witness :
    (reservoirIndices [some ⟨dD, 3⟩, some ⟨dB, 1⟩]).Nodup :=
  C9_arrival_indices_distinct 2 (fun _ => (0, 0)) [dA, dB, dC, dD]
    [some ⟨dD, 3⟩, some ⟨dB, 1⟩] 4 (by decide) (by decide)

/-- C10: in any successful run with K ≥ 1 the reservoir always has exactly
K slots, all non-null (filled by the initial fill and only overwritten by
replacements), and whenever the guard `RandomValue ≤ ReservoirSize - 1`
passes, the index `RandomValue = raw % SampleIndex` (nonnegative by
construction) is strictly below K and hence within the reservoir. -/
theorem C10_replacement_access_safe : ∀ (K : Nat) (rands : Nat → Nat × Nat)
    (stream : List DATA_ITEM) (R : List (Option SAMPLE_ITEM)) (total : Nat),
    1 ≤ K → GenerateAlgorithmR K rands stream = some (R, total) →
    R.length = K
      ∧ (∀ o ∈ R, o.isSome = true)
      ∧ (∀ SampleIndex raw : Nat, selectDecision K SampleIndex raw = true →
          raw % SampleIndex < K ∧ raw % SampleIndex < R.length) := by
  intro K rands stream R total hK h
  obtain ⟨h1, h2, _, _⟩ := GenerateAlgorithmR_invariant K rands stream R total hK h
  refine ⟨h1, h2, ?_⟩
  intro i raw hsel
  simp only [selectDecision, decide_eq_true_eq] at hsel
  omega

/-- Witness for C10: concrete run (K = 2), with the guard passing at
`SampleIndex = 3`, `raw = 7`. -/
theorem C10_witness :
    7 % 3 < 2 ∧ 7 % 3 < ([some ⟨dD, 3⟩, some ⟨dB, 1⟩] : List (Option SAMPLE_ITEM)).length :=
  (C10_replacement_access_safe 2 (fun _ => (0, 0)) [dA, dB, dC, dD]
    [some ⟨dD, 3⟩, some ⟨dB, 1⟩] 4 (by decide) (by decide)).2.2 3 7 (by decide)
